import Mathlib

/-!
Shallow embedding of the NEN-V prototype simulation core
(src/dendritoma.rs, src/glia.rs, src/nenv.rs, src/network.rs).

Modelling conventions:
* Rust `f64` scalars are idealised as an arbitrary linear ordered field `K`
  (the canonical program instance is `K := ℝ`); all claim theorems are proved
  for every such `K`, hence in particular for `ℝ`.
* `f64::sqrt` (used only by the L2 renormalisation in
  `Dendritoma::apply_learning` and by the grid-side computation in
  `Network::new`) is passed in as an explicit function parameter `sq`; the
  program instance is `Real.sqrt`.  Claims that do not depend on the value of
  the square root are proved for every `sq`.
* Rust `assert_eq!` length preconditions (the `DimensionMismatch` condition of
  the spec) are modelled by `Option`: `none` is the assertion failure.
* The random initial weights of `Dendritoma::new` are injected as an explicit
  parameter (the spec requires the randomness to be injectable).
* Vectors are `List K`; in-place index mutation is modelled with `List.set`,
  and indexed reads `v[i]` with `List.getD` (all such reads in the source are
  within bounds for networks produced by `Network::new`).
-/

set_option linter.unusedSectionVars false

/-- `Option`-valued map over a list: the monadic traversal used to model a
Rust loop whose body can fail an assertion. -/
def mapOpt (f : α → Option β) : List α → Option (List β)
  | [] => some []
  | a :: as => do
    let b ← f a
    let bs ← mapOpt f as
    pure (b :: bs)

/-- Neuron kind, from `nenv.rs` (`NeuronType`). -/
inductive NeuronType where
  | Excitatory
  | Inhibitory
deriving DecidableEq, Repr

/-- Network topology kind, from `network.rs` (`ConnectivityType`). -/
inductive ConnectivityType where
  | FullyConnected
  | Grid2D
deriving DecidableEq, Repr

variable {K : Type} [LinearOrderedField K]

/-- Synapse unit, from `dendritoma.rs` (`Dendritoma`). -/
structure Dendritoma (K : Type) where
  weights : List K
  plasticity : List K
  learning_rate : K
deriving DecidableEq, Repr

/-- `Dendritoma::new`, with the random weight sample `ws` (length
`num_inputs`, drawn in `0.1..0.3` by the source) injected as a parameter. -/
def Dendritoma.new (num_inputs : Nat) (ws : List K) : Dendritoma K :=
  { weights := ws
    plasticity := List.replicate num_inputs 1
    learning_rate := 1 / 100 }

/-- `Dendritoma::integrate`: weighted sum of the inputs; the length
`assert_eq!` is modelled by `Option`. -/
def Dendritoma.integrate (d : Dendritoma K) (inputs : List K) : Option K :=
  if inputs.length = d.weights.length then
    some ((inputs.zip d.weights).map (fun p => p.1 * p.2)).sum
  else
    none

/-- Phase 1 of `Dendritoma::apply_learning`: the one-sided Hebbian update,
strengthening `weights[i]` by `learning_rate * plasticity[i] * inputs[i]`
exactly when `inputs[i] > 0`. -/
def Dendritoma.hebbian_weights (d : Dendritoma K) (inputs : List K) : List K :=
  (d.weights.zip (d.plasticity.zip inputs)).map
    (fun p => if 0 < p.2.2 then p.1 + d.learning_rate * p.2.1 * p.2.2 else p.1)

/-- The L2 norm computed by `Dendritoma::apply_learning` and
`Dendritoma::weight_norm`, with the square root `sq` a parameter. -/
def l2_norm (sq : K → K) (ws : List K) : K :=
  sq ((ws.map (fun w => w * w)).sum)

/-- `Dendritoma::apply_learning`: Hebbian phase, then L2 normalisation when
the resulting norm is positive; the length `assert_eq!` is `Option`. -/
def Dendritoma.apply_learning (sq : K → K) (d : Dendritoma K) (inputs : List K) :
    Option (Dendritoma K) :=
  if inputs.length = d.weights.length then
    let ws := d.hebbian_weights inputs
    let norm := l2_norm sq ws
    some { d with weights := if 0 < norm then ws.map (fun w => w / norm) else ws }
  else
    none

/-- Metabolic unit, from `glia.rs` (`Glia`). -/
structure Glia (K : Type) where
  energy : K
  priority : K
  alert_level : K
  max_energy : K
  energy_cost_fire : K
  energy_cost_maintenance : K
  energy_recovery_rate : K
deriving DecidableEq, Repr

/-- `Glia::new` (default parameters of the source). -/
def Glia.new : Glia K :=
  { energy := 100
    priority := 1
    alert_level := 0
    max_energy := 100
    energy_cost_fire := 10
    energy_cost_maintenance := 1 / 10
    energy_recovery_rate := 2 }

/-- `Glia::modulate`: `potential * max(energy/max_energy, 0) * priority`. -/
def Glia.modulate (g : Glia K) (integrated_potential : K) : K :=
  integrated_potential * max (g.energy / g.max_energy) 0 * g.priority

/-- `Glia::update_state`: consume on fire or recover at rest (alert-boosted),
then subtract maintenance, then clamp energy to `[0, max_energy]`. -/
def Glia.update_state (g : Glia K) (did_fire : Bool) : Glia K :=
  let e1 :=
    if did_fire then
      g.energy - g.energy_cost_fire
    else
      let base_recovery := g.energy_recovery_rate * (1 - g.energy / g.max_energy)
      let alert_boost := base_recovery * g.alert_level
      g.energy + base_recovery + alert_boost
  let e2 := e1 - g.energy_cost_maintenance
  { g with energy := min (max e2 0) g.max_energy }

/-- Neuron, from `nenv.rs` (`NENV`). -/
structure NENV (K : Type) where
  id : Nat
  neuron_type : NeuronType
  dendritoma : Dendritoma K
  glia : Glia K
  memory_trace : List K
  last_fire_time : Int
  threshold : K
  is_firing : Bool
  output_signal : K
  refractory_period : Int
  memory_alpha : K
deriving DecidableEq, Repr

/-- `NENV::new`, with the random initial weights `ws` injected. -/
def NENV.new (id num_inputs : Nat) (initial_threshold : K)
    (neuron_type : NeuronType) (ws : List K) : NENV K :=
  { id := id
    neuron_type := neuron_type
    dendritoma := Dendritoma.new num_inputs ws
    glia := Glia.new
    memory_trace := List.replicate num_inputs 0
    last_fire_time := -1
    threshold := initial_threshold
    is_firing := false
    output_signal := 0
    refractory_period := 5
    memory_alpha := 1 / 10 }

/-- The refractory test of `NENV::decide_to_fire`: a neuron that has never
fired (`last_fire_time < 0`) is not refractory; otherwise it is refractory
exactly when `current_time - last_fire_time < refractory_period`. -/
def NENV.is_in_refractory (nr : NENV K) (current_time : Int) : Bool :=
  if nr.last_fire_time < 0 then
    false
  else
    current_time - nr.last_fire_time < nr.refractory_period

/-- `NENV::decide_to_fire`: reset the firing state, then fire exactly when the
modulated potential strictly exceeds the threshold and the neuron is not
refractory. -/
def NENV.decide_to_fire (nr : NENV K) (modulated_potential : K)
    (current_time : Int) : NENV K :=
  if nr.threshold < modulated_potential ∧ nr.is_in_refractory current_time = false then
    { nr with
      is_firing := true
      last_fire_time := current_time
      output_signal :=
        match nr.neuron_type with
        | NeuronType.Excitatory => 1
        | NeuronType.Inhibitory => -1 }
  else
    { nr with is_firing := false, output_signal := 0 }

/-- `NENV::update_memory`: elementwise exponential moving average of the
inputs; the length `assert_eq!` is `Option`. -/
def NENV.update_memory (nr : NENV K) (inputs : List K) : Option (NENV K) :=
  if inputs.length = nr.memory_trace.length then
    some { nr with
      memory_trace :=
        (nr.memory_trace.zip inputs).map
          (fun p => (1 - nr.memory_alpha) * p.1 + nr.memory_alpha * p.2) }
  else
    none

/-- `NENV::compute_novelty`: mean absolute difference between the inputs and
the memory trace; the length `assert_eq!` is `Option`. -/
def NENV.compute_novelty (nr : NENV K) (inputs : List K) : Option K :=
  if inputs.length = nr.memory_trace.length then
    some (((inputs.zip nr.memory_trace).map (fun p => |p.1 - p.2|)).sum
      / (inputs.length : K))
  else
    none

/-- `NENV::update_priority`: `priority := min (1 + novelty * sensitivity, 3)`. -/
def NENV.update_priority (nr : NENV K) (novelty sensitivity_factor : K) : NENV K :=
  { nr with glia := { nr.glia with
      priority := min (1 + novelty * sensitivity_factor) 3 } }

/-- The per-neuron alert mirroring `neuron.glia.alert_level = a` performed by
the three alert-level methods of `Network`. -/
def NENV.set_alert (nr : NENV K) (a : K) : NENV K :=
  { nr with glia := { nr.glia with alert_level := a } }

/-- Network, from `network.rs` (`Network`). -/
structure Network (K : Type) where
  neurons : List (NENV K)
  connectivity_matrix : List (List Nat)
  current_time_step : Int
  grid_width : Nat
  grid_height : Nat
  alert_level : K
  alert_decay_rate : K
  current_avg_novelty : K
  novelty_alert_threshold : K
  alert_sensitivity : K
deriving DecidableEq, Repr

/-- The Moore-neighbourhood offsets visited by the `dr`/`dc` double loop of
`Network::generate_2d_grid_connectivity` (the `(0,0)` self entry is skipped
by the source). -/
def mooreOffsets : List (Int × Int) :=
  [(-1, -1), (-1, 0), (-1, 1), (0, -1), (0, 1), (1, -1), (1, 0), (1, 1)]

/-- `Network::generate_2d_grid_connectivity`: row `i` of the matrix, built by
setting the in-bounds Moore neighbours of cell `i` on a clipped
`width × width` grid, dropping linear indices `≥ num_neurons`. -/
def Network.generate_2d_grid_row (num_neurons width i : Nat) : List Nat :=
  mooreOffsets.foldl
    (fun row d =>
      let new_row : Int := (i / width : Nat) + d.1
      let new_col : Int := (i % width : Nat) + d.2
      if 0 ≤ new_row ∧ new_row < (width : Int) ∧ 0 ≤ new_col ∧ new_col < (width : Int) then
        let j := new_row.toNat * width + new_col.toNat
        if j < num_neurons then row.set j 1 else row
      else
        row)
    (List.replicate num_neurons 0)

/-- `Network::generate_2d_grid_connectivity` (whole matrix). -/
def Network.generate_2d_grid_connectivity (num_neurons width : Nat) :
    List (List Nat) :=
  (List.range num_neurons).map (Network.generate_2d_grid_row num_neurons width)

/-- `Network::generate_connectivity`: `FullyConnected` sets every entry of the
`n × n` matrix (including the diagonal), `Grid2D` uses the Moore rows. -/
def Network.generate_connectivity (num_neurons : Nat)
    (connectivity_type : ConnectivityType) (grid_width : Nat) : List (List Nat) :=
  match connectivity_type with
  | ConnectivityType.FullyConnected =>
      List.replicate num_neurons (List.replicate num_neurons 1)
  | ConnectivityType.Grid2D =>
      Network.generate_2d_grid_connectivity num_neurons grid_width

/-- `Network::new`, with the square root `sq` (used for the grid side) and the
per-neuron random initial weights `wInit` injected.  The first
`floor(num_neurons * inhibitory_ratio)` neurons are inhibitory, the rest
excitatory. -/
def Network.new [FloorRing K] (sq : K → K) (wInit : Nat → List K)
    (num_neurons : Nat) (connectivity_type : ConnectivityType)
    (inhibitory_ratio initial_threshold : K) : Network K :=
  let grid_width :=
    match connectivity_type with
    | ConnectivityType.Grid2D => (⌈sq ((num_neurons : K))⌉).toNat
    | ConnectivityType.FullyConnected => 0
  let num_inhibitory := (⌊(num_neurons : K) * inhibitory_ratio⌋).toNat
  { neurons :=
      (List.range num_neurons).map (fun i =>
        NENV.new i num_neurons initial_threshold
          (if i < num_inhibitory then NeuronType.Inhibitory else NeuronType.Excitatory)
          (wInit i))
    connectivity_matrix :=
      Network.generate_connectivity num_neurons connectivity_type grid_width
    current_time_step := 0
    grid_width := grid_width
    grid_height := grid_width
    alert_level := 0
    alert_decay_rate := 5 / 100
    current_avg_novelty := 0
    novelty_alert_threshold := 5 / 10
    alert_sensitivity := 3 / 10 }

/-- `Network::set_alert_level`: clamp to `[0,1]` and mirror into every
neuron's metabolic unit. -/
def Network.set_alert_level (net : Network K) (level : K) : Network K :=
  let a := min (max level 0) 1
  { net with
    alert_level := a
    neurons := net.neurons.map (fun nr => nr.set_alert a) }

/-- `Network::boost_alert_level`: add the boost, clamp only from above at
`1.0`, and mirror into every neuron's metabolic unit. -/
def Network.boost_alert_level (net : Network K) (boost : K) : Network K :=
  let a := min (net.alert_level + boost) 1
  { net with
    alert_level := a
    neurons := net.neurons.map (fun nr => nr.set_alert a) }

/-- `Network::update_alert_level`: multiplicative decay, mirrored into every
neuron's metabolic unit. -/
def Network.update_alert_level (net : Network K) : Network K :=
  let a := net.alert_level * (1 - net.alert_decay_rate)
  { net with
    alert_level := a
    neurons := net.neurons.map (fun nr => nr.set_alert a) }

/-- `Network::set_novelty_alert_params`: threshold clamped to `≥ 0`,
sensitivity clamped to `[0,1]`. -/
def Network.set_novelty_alert_params (net : Network K) (threshold sensitivity : K) :
    Network K :=
  { net with
    novelty_alert_threshold := max threshold 0
    alert_sensitivity := min (max sensitivity 0) 1 }

/-- `Network::gather_inputs`: start from an all-zero vector of length `n`,
copy `all_outputs[j]` into slot `j` for every connected `j`, then add the
external stimulus entry `external[i]` onto slot `i` for every `i` that is in
range (out-of-range stimulus entries are skipped by the source's bounds
check). -/
def Network.gather_inputs (net : Network K) (neuron_idx : Nat)
    (all_outputs external_inputs : List K) : List K :=
  let inputs0 : List K := List.replicate net.neurons.length 0
  let inputs1 :=
    (List.range net.neurons.length).foldl
      (fun acc j =>
        if (net.connectivity_matrix.getD neuron_idx []).getD j 0 = 1 then
          acc.set j (all_outputs.getD j 0)
        else
          acc)
      inputs0
  (List.range external_inputs.length).foldl
    (fun acc i =>
      if i < acc.length then acc.set i (acc.getD i 0 + external_inputs.getD i 0) else acc)
    inputs1

/-- Phase 0 of `Network::update`: increment the tick counter, then decay the
alert level (which re-mirrors it into every neuron). -/
def Network.phase0 (net : Network K) : Network K :=
  Network.update_alert_level { net with current_time_step := net.current_time_step + 1 }

/-- The per-tick input gathering of `Network::update`: the previous-tick
output signals of all neurons are snapshotted once, and every neuron's input
vector is built from that snapshot plus the external stimulus. -/
def Network.gather_all (net : Network K) (external_inputs : List K) : List (List K) :=
  let all_neuron_outputs := net.neurons.map (fun nr => nr.output_signal)
  (List.range net.neurons.length).map
    (fun idx => net.gather_inputs idx all_neuron_outputs external_inputs)

/-- Phase 4 of `Network::update` for one neuron: novelty (before the memory
update), priority, learning if firing, metabolic update, then memory update.
Returns the updated neuron together with its novelty contribution. -/
def NENV.phase4_step (sq : K → K) (nr : NENV K) (inputs : List K) :
    Option (NENV K × K) := do
  let novelty ← nr.compute_novelty inputs
  let nr1 := nr.update_priority novelty 1
  let d ←
    if nr1.is_firing then nr1.dendritoma.apply_learning sq inputs else pure nr1.dendritoma
  let nr2 := { nr1 with dendritoma := d, glia := nr1.glia.update_state nr1.is_firing }
  let nr3 ← nr2.update_memory inputs
  pure (nr3, novelty)

/-- Phase 5 of `Network::update`: aggregate the average novelty over the
phase-4 results, store it, and boost the alert level when it exceeds the
threshold. -/
def Network.finish_tick (net2 : Network K) (results : List (NENV K × K)) : Network K :=
  let neurons4 := results.map Prod.fst
  let total_novelty := (results.map Prod.snd).sum
  let avg := total_novelty / (net2.neurons.length : K)
  let net5 := { net2 with neurons := neurons4, current_avg_novelty := avg }
  if net5.novelty_alert_threshold < avg then
    net5.boost_alert_level (avg * net5.alert_sensitivity)
  else
    net5

/-- `Network::update`: one synchronous tick.  Phases, in source order:
increment tick and decay alert (phase 0); snapshot every neuron's
previous-tick output signal and gather every neuron's inputs from that
snapshot; integrate and modulate for the whole population; decide firing for
the whole population; per-neuron novelty, priority, learning, metabolic and
memory updates; finally aggregate the average novelty and conditionally
boost the alert level. -/
def Network.update (sq : K → K) (net : Network K) (external_inputs : List K) :
    Option (Network K) :=
  let net2 := net.phase0
  let gathered := net2.gather_all external_inputs
  match
    mapOpt
      (fun p => (Dendritoma.integrate p.1.dendritoma p.2).map
        (fun integrated => p.1.glia.modulate integrated))
      (net2.neurons.zip gathered)
  with
  | none => none
  | some modulated =>
    let neurons3 :=
      (net2.neurons.zip modulated).map
        (fun p => p.1.decide_to_fire p.2 net2.current_time_step)
    match mapOpt (fun p => NENV.phase4_step sq p.1 p.2) (neurons3.zip gathered) with
    | none => none
    | some results => some (net2.finish_tick results)

/-- A sequence of ticks: `Network::update` driven with one stimulus vector
per tick. -/
def Network.run (sq : K → K) : Network K → List (List K) → Option (Network K)
  | net, [] => some net
  | net, e :: rest => (net.update sq e).bind (fun net' => Network.run sq net' rest)

/-- One external call to the network configuration/tick interface. -/
inductive NetOp (K : Type) where
  | set_alert (level : K)
  | boost_alert (amount : K)
  | tick (external_inputs : List K)

/-- Apply one external call. -/
def Network.apply_op (sq : K → K) (net : Network K) : NetOp K → Option (Network K)
  | NetOp.set_alert l => some (net.set_alert_level l)
  | NetOp.boost_alert b => some (net.boost_alert_level b)
  | NetOp.tick e => net.update sq e

/-- Run a finite sequence of external calls. -/
def Network.run_ops (sq : K → K) : Network K → List (NetOp K) → Option (Network K)
  | net, [] => some net
  | net, op :: rest => (net.apply_op sq op).bind (fun net' => Network.run_ops sq net' rest)

/-- Dimension consistency of a network: every neuron's weight, plasticity and
memory vectors, the connectivity matrix and each of its rows all have the
population size as their length.  `Network::new` establishes this and it is
the source's indexing precondition. -/
def Network.wellformed (net : Network K) : Prop :=
  net.connectivity_matrix.length = net.neurons.length ∧
  (∀ row ∈ net.connectivity_matrix, row.length = net.neurons.length) ∧
  ∀ nr ∈ net.neurons,
    nr.dendritoma.weights.length = net.neurons.length ∧
    nr.dendritoma.plasticity.length = net.neurons.length ∧
    nr.memory_trace.length = net.neurons.length

instance (net : Network K) : Decidable net.wellformed := by
  unfold Network.wellformed
  infer_instance

/-- Glia driven through a finite sequence of fire/rest steps. -/
def Glia.runFlags (g : Glia K) (flags : List Bool) : Glia K :=
  flags.foldl (fun g' f => g'.update_state f) g

theorem mapOpt_nil (f : α → Option β) : mapOpt f [] = some [] := rfl

theorem mapOpt_cons (f : α → Option β) (a : α) (as : List α) :
    mapOpt f (a :: as) =
      (f a).bind (fun b => (mapOpt f as).bind (fun bs => some (b :: bs))) := rfl

theorem mapOpt_length (f : α → Option β) :
    ∀ {xs : List α} {ys : List β}, mapOpt f xs = some ys → ys.length = xs.length := by
  intro xs
  induction xs with
  | nil =>
    intro ys h
    simp [mapOpt_nil] at h
    simp [← h]
  | cons a as ih =>
    intro ys h
    rw [mapOpt_cons, Option.bind_eq_some] at h
    obtain ⟨b, _, h2⟩ := h
    rw [Option.bind_eq_some] at h2
    obtain ⟨bs, h3, h4⟩ := h2
    cases h4
    simp [ih h3]

theorem mapOpt_getElem? (f : α → Option β) :
    ∀ {xs : List α} {ys : List β}, mapOpt f xs = some ys →
      ∀ (i : Nat) (b : β), ys[i]? = some b → ∃ a, xs[i]? = some a ∧ f a = some b := by
  intro xs
  induction xs with
  | nil =>
    intro ys h
    simp [mapOpt_nil] at h
    subst h
    intro i b hb
    simp at hb
  | cons a as ih =>
    intro ys h
    rw [mapOpt_cons, Option.bind_eq_some] at h
    obtain ⟨b0, hb0, h2⟩ := h
    rw [Option.bind_eq_some] at h2
    obtain ⟨bs, h3, h4⟩ := h2
    cases h4
    intro i b hb
    match i with
    | 0 =>
      simp at hb
      exact ⟨a, by simp, hb ▸ hb0⟩
    | Nat.succ i' =>
      simp at hb
      obtain ⟨a', ha', hfa'⟩ := ih h3 i' b hb
      exact ⟨a', by simpa using ha', hfa'⟩

theorem mapOpt_isSome (f : α → Option β) :
    ∀ {xs : List α}, (∀ a ∈ xs, (f a).isSome = true) → (mapOpt f xs).isSome = true := by
  intro xs
  induction xs with
  | nil => intro _; simp [mapOpt_nil]
  | cons a as ih =>
    intro h
    have ha : (f a).isSome = true := h a (by simp)
    obtain ⟨b, hb⟩ := Option.isSome_iff_exists.mp ha
    have has : (mapOpt f as).isSome = true := ih (fun x hx => h x (by simp [hx]))
    obtain ⟨bs, hbs⟩ := Option.isSome_iff_exists.mp has
    simp [mapOpt_cons, hb, hbs]

theorem foldl_condSet_length {α : Type} (c : Nat → Prop) [DecidablePred c] (v : Nat → α) :
    ∀ (idxs : List Nat) (l : List α),
      (idxs.foldl (fun acc j => if c j then acc.set j (v j) else acc) l).length
        = l.length := by
  intro idxs
  induction idxs with
  | nil => intro l; rfl
  | cons i rest ih =>
    intro l
    simp only [List.foldl_cons]
    rw [ih]
    by_cases h : c i <;> simp [h]

theorem foldl_condSet_getElem?_not_mem {α : Type} (c : Nat → Prop) [DecidablePred c] (v : Nat → α) :
    ∀ (idxs : List Nat) (l : List α) (j : Nat), j ∉ idxs →
      (idxs.foldl (fun acc j' => if c j' then acc.set j' (v j') else acc) l)[j]?
        = l[j]? := by
  intro idxs
  induction idxs with
  | nil => intro l j _; rfl
  | cons i rest ih =>
    intro l j hj
    simp only [List.mem_cons, not_or] at hj
    simp only [List.foldl_cons]
    rw [ih _ _ hj.2]
    by_cases h : c i
    · simp only [h, if_pos]
      exact List.getElem?_set_ne (fun he => hj.1 he.symm)
    · simp [h]

theorem foldl_condSet_getElem?_mem {α : Type} (c : Nat → Prop) [DecidablePred c] (v : Nat → α) :
    ∀ (idxs : List Nat) (l : List α) (j : Nat),
      j ∈ idxs → idxs.Nodup → c j → j < l.length →
      (idxs.foldl (fun acc j' => if c j' then acc.set j' (v j') else acc) l)[j]?
        = some (v j) := by
  intro idxs
  induction idxs with
  | nil => intro l j hj; simp at hj
  | cons i rest ih =>
    intro l j hj hnd hc hlt
    have hnd' := List.nodup_cons.mp hnd
    simp only [List.foldl_cons]
    rcases List.mem_cons.mp hj with he | hm
    · subst he
      rw [foldl_condSet_getElem?_not_mem _ _ _ _ _ hnd'.1]
      simp only [hc, if_pos]
      exact List.getElem?_set_self hlt
    · have hlen : j < (if c i then l.set i (v i) else l).length := by
        by_cases h : c i <;> simp [h, hlt]
      exact ih _ j hm hnd'.2 hc hlen

theorem foldl_addSet_length (w : Nat → K) :
    ∀ (idxs : List Nat) (l : List K),
      (idxs.foldl
        (fun acc i => if i < acc.length then acc.set i (acc.getD i 0 + w i) else acc)
        l).length = l.length := by
  intro idxs
  induction idxs with
  | nil => intro l; rfl
  | cons i rest ih =>
    intro l
    simp only [List.foldl_cons]
    rw [ih]
    by_cases h : i < l.length <;> simp [h]

theorem foldl_addSet_getElem?_not_mem (w : Nat → K) :
    ∀ (idxs : List Nat) (l : List K) (j : Nat), j ∉ idxs →
      (idxs.foldl
        (fun acc i => if i < acc.length then acc.set i (acc.getD i 0 + w i) else acc)
        l)[j]? = l[j]? := by
  intro idxs
  induction idxs with
  | nil => intro l j _; rfl
  | cons i rest ih =>
    intro l j hj
    simp only [List.mem_cons, not_or] at hj
    simp only [List.foldl_cons]
    rw [ih _ _ hj.2]
    by_cases h : i < l.length
    · simp only [h, if_pos]
      exact List.getElem?_set_ne (fun he => hj.1 he.symm)
    · simp [h]

theorem foldl_addSet_getElem?_mem (w : Nat → K) :
    ∀ (idxs : List Nat) (l : List K) (j : Nat), j ∈ idxs → idxs.Nodup →
      (idxs.foldl
        (fun acc i => if i < acc.length then acc.set i (acc.getD i 0 + w i) else acc)
        l)[j]? = (l[j]?).map (fun x => x + w j) := by
  intro idxs
  induction idxs with
  | nil => intro l j hj; simp at hj
  | cons i rest ih =>
    intro l j hj hnd
    have hnd' := List.nodup_cons.mp hnd
    simp only [List.foldl_cons]
    rcases List.mem_cons.mp hj with he | hm
    · subst he
      rw [foldl_addSet_getElem?_not_mem _ _ _ _ hnd'.1]
      by_cases h : j < l.length
      · simp only [h, if_pos]
        rw [List.getElem?_set_self (by simpa using h)]
        simp [List.getD_eq_getElem?_getD, List.getElem?_eq_getElem h]
      · have hnone : l[j]? = none := List.getElem?_eq_none (by omega)
        simp [h, hnone]
    · have hne : j ≠ i := fun he => hnd'.1 (he ▸ hm)
      by_cases h : i < l.length
      · have := ih (l.set i (l.getD i 0 + w i)) j hm hnd'.2
        simp only [h, if_pos]
        rw [this, List.getElem?_set_ne (fun he => hne he.symm)]
      · simp only [h, if_neg, ite_false]
        exact ih l j hm hnd'.2

theorem foldl_condSet_getElem?_not {α : Type} (c : Nat → Prop) [DecidablePred c] (v : Nat → α) :
    ∀ (idxs : List Nat) (l : List α) (j : Nat), ¬ c j →
      (idxs.foldl (fun acc j' => if c j' then acc.set j' (v j') else acc) l)[j]?
        = l[j]? := by
  intro idxs
  induction idxs with
  | nil => intro l j _; rfl
  | cons i rest ih =>
    intro l j hcj
    simp only [List.foldl_cons]
    rw [ih _ _ hcj]
    by_cases h : c i
    · by_cases hij : i = j
      · exact absurd (hij ▸ h) hcj
      · simp only [h, if_pos]
        exact List.getElem?_set_ne hij
    · simp [h]

theorem gather_inputs_length (net : Network K) (idx : Nat) (outs ext : List K) :
    (net.gather_inputs idx outs ext).length = net.neurons.length := by
  unfold Network.gather_inputs
  rw [foldl_addSet_length, foldl_condSet_length]
  simp

/-- Elementwise description of `Network::gather_inputs`: slot `j` is the
connectivity-masked output of neuron `j` plus the external stimulus entry `j`
(zero when the stimulus has no entry `j`). -/
theorem gather_inputs_getElem? (net : Network K) (idx j : Nat) (outs ext : List K)
    (hj : j < net.neurons.length) :
    (net.gather_inputs idx outs ext)[j]? =
      some ((if (net.connectivity_matrix.getD idx []).getD j 0 = 1 then outs.getD j 0 else 0)
        + (if j < ext.length then ext.getD j 0 else 0)) := by
  unfold Network.gather_inputs
  have hbase : (List.replicate net.neurons.length (0 : K))[j]? = some 0 := by
    simp [hj]
  have hinner :
      ((List.range net.neurons.length).foldl
        (fun acc j' =>
          if (net.connectivity_matrix.getD idx []).getD j' 0 = 1 then
            acc.set j' (outs.getD j' 0)
          else acc)
        (List.replicate net.neurons.length (0 : K)))[j]?
      = some (if (net.connectivity_matrix.getD idx []).getD j 0 = 1 then outs.getD j 0 else 0) := by
    by_cases hc : (net.connectivity_matrix.getD idx []).getD j 0 = 1
    · rw [foldl_condSet_getElem?_mem
        (fun j' => (net.connectivity_matrix.getD idx []).getD j' 0 = 1)
        (fun j' => outs.getD j' 0) _ _ _ (List.mem_range.mpr hj)
        (List.nodup_range _) hc (by simp [hj])]
      rw [if_pos hc]
    · rw [foldl_condSet_getElem?_not
        (fun j' => (net.connectivity_matrix.getD idx []).getD j' 0 = 1)
        (fun j' => outs.getD j' 0) _ _ _ hc, hbase]
      rw [if_neg hc]
  have hlen1 :
      ((List.range net.neurons.length).foldl
        (fun acc j' =>
          if (net.connectivity_matrix.getD idx []).getD j' 0 = 1 then
            acc.set j' (outs.getD j' 0)
          else acc)
        (List.replicate net.neurons.length (0 : K))).length = net.neurons.length := by
    rw [foldl_condSet_length]; simp
  by_cases hext : j < ext.length
  · rw [foldl_addSet_getElem?_mem _ _ _ _ (List.mem_range.mpr hext) (List.nodup_range _)]
    rw [hinner]
    simp [hext]
  · rw [foldl_addSet_getElem?_not_mem _ _ _ _ (by simpa using hext)]
    rw [hinner]
    simp [hext]

theorem Glia.update_state_max_energy (g : Glia K) (f : Bool) :
    (g.update_state f).max_energy = g.max_energy := rfl

theorem Glia.update_state_alert_level (g : Glia K) (f : Bool) :
    (g.update_state f).alert_level = g.alert_level := rfl

theorem Glia.update_state_energy_bounds (g : Glia K) (f : Bool)
    (hmax : 0 ≤ g.max_energy) :
    0 ≤ (g.update_state f).energy ∧ (g.update_state f).energy ≤ g.max_energy := by
  constructor
  · exact le_min (le_max_right _ _) hmax
  · exact min_le_right _ _

/-- Claim C2: starting from energy in `[0, max_energy]` and alert level in
`[0, 1]`, any finite sequence of `Glia::update_state` calls with arbitrary
`did_fire` flags keeps the energy in `[0, max_energy]` (the final clamp of
`update_state` enforces the bounds after the fire/rest and maintenance
arithmetic). -/
theorem glia_energy_stays_bounded (g : Glia K) (flags : List Bool)
    (h1 : 0 ≤ g.energy) (h2 : g.energy ≤ g.max_energy)
    (h3 : 0 ≤ g.alert_level) (h4 : g.alert_level ≤ 1) :
    0 ≤ (g.runFlags flags).energy ∧
      (g.runFlags flags).energy ≤ (g.runFlags flags).max_energy := by
  induction flags generalizing g with
  | nil => exact ⟨h1, h2⟩
  | cons f rest ih =>
    have hstep := Glia.update_state_energy_bounds g f (h1.trans h2)
    have hrun : g.runFlags (f :: rest) = (g.update_state f).runFlags rest := by
      simp [Glia.runFlags]
    rw [hrun]
    exact ih (g.update_state f) hstep.1
      (by rw [Glia.update_state_max_energy]; exact hstep.2)
      (by rw [Glia.update_state_alert_level]; exact h3)
      (by rw [Glia.update_state_alert_level]; exact h4)

/-- Witness for C2 at a concrete metabolic unit and flag sequence. -/
theorem glia_energy_stays_bounded_witness :
    (0 : ℚ) ≤ (Glia.new (K := ℚ)).energy ∧
      (Glia.new (K := ℚ)).energy ≤ (Glia.new (K := ℚ)).max_energy ∧
      (0 : ℚ) ≤ (Glia.new (K := ℚ)).alert_level ∧
      (Glia.new (K := ℚ)).alert_level ≤ 1 ∧
      (0 ≤ ((Glia.new (K := ℚ)).runFlags [true, false, true, true, false]).energy ∧
        ((Glia.new (K := ℚ)).runFlags [true, false, true, true, false]).energy ≤
          ((Glia.new (K := ℚ)).runFlags [true, false, true, true, false]).max_energy) :=
  ⟨by decide, by decide, by decide, by decide,
    glia_energy_stays_bounded (Glia.new (K := ℚ)) [true, false, true, true, false]
      (by decide) (by decide) (by decide) (by decide)⟩

/-- Claim C9: under the `FullyConnected` topology every adjacency entry is 1,
including the diagonal entries, so each adjacency row sums to the population
size. -/
theorem fully_connected_adjacency [FloorRing K] (sq : K → K) (wInit : Nat → List K)
    (num_neurons : Nat) (inhibitory_ratio initial_threshold : K) (i j : Nat)
    (hi : i < num_neurons) (hj : j < num_neurons) :
    (((Network.new sq wInit num_neurons ConnectivityType.FullyConnected
        inhibitory_ratio initial_threshold).connectivity_matrix.getD i []).getD j 0 = 1)
    ∧ ((Network.new sq wInit num_neurons ConnectivityType.FullyConnected
        inhibitory_ratio initial_threshold).connectivity_matrix.getD i []).sum
      = num_neurons := by
  have hmat : (Network.new sq wInit num_neurons ConnectivityType.FullyConnected
      inhibitory_ratio initial_threshold).connectivity_matrix
      = List.replicate num_neurons (List.replicate num_neurons 1) := rfl
  have hrow : (Network.new sq wInit num_neurons ConnectivityType.FullyConnected
      inhibitory_ratio initial_threshold).connectivity_matrix.getD i []
      = List.replicate num_neurons 1 := by
    rw [hmat]
    simp [hi]
  rw [hrow]
  constructor
  · simp [hj]
  · simp [List.sum_replicate]

/-- Witness for C9 at a concrete population size. -/
theorem fully_connected_adjacency_witness :
    (2 : Nat) < 10 ∧ (7 : Nat) < 10 ∧
      ((((Network.new (K := ℚ) (fun _ => 0) (fun _ => List.replicate 10 0) 10
          ConnectivityType.FullyConnected 0 (1/2)).connectivity_matrix.getD 2 []).getD 7 0 = 1)
      ∧ (((Network.new (K := ℚ) (fun _ => 0) (fun _ => List.replicate 10 0) 10
          ConnectivityType.FullyConnected 0 (1/2)).connectivity_matrix.getD 2 []).sum = 10)) :=
  ⟨by decide, by decide,
    fully_connected_adjacency (K := ℚ) (fun _ => 0) (fun _ => List.replicate 10 0) 10 0 (1/2)
      2 7 (by decide) (by decide)⟩

/-- A one-neuron network literal with alert level 0, used as the existential
configuration of claim C7. -/
def sampleNet : Network K :=
  { neurons := [NENV.new 0 1 0 NeuronType.Excitatory [0]]
    connectivity_matrix := [[1]]
    current_time_step := 0
    grid_width := 0
    grid_height := 0
    alert_level := 0
    alert_decay_rate := 5 / 100
    current_avg_novelty := 0
    novelty_alert_threshold := 5 / 10
    alert_sensitivity := 3 / 10 }

/-- Claim C7: `Network::boost_alert_level` clamps only at the upper bound: from
alert level 0, a negative boost drives the network alert level (and every
neuron's mirrored copy) strictly below 0. -/
theorem boost_alert_no_lower_clamp :
    ∃ (net : Network K) (b : K),
      net.alert_level = 0 ∧ b < 0 ∧ net.neurons ≠ [] ∧
      (net.boost_alert_level b).alert_level < 0 ∧
      ∀ nr ∈ (net.boost_alert_level b).neurons, nr.glia.alert_level < 0 := by
  refine ⟨sampleNet, -1, rfl, by norm_num, by simp [sampleNet], ?_, ?_⟩
  · show min ((0 : K) + -1) 1 < 0
    rw [min_eq_left (by norm_num)]
    norm_num
  · intro nr hnr
    simp only [Network.boost_alert_level, sampleNet, List.map_cons, List.map_nil,
      List.mem_cons, List.not_mem_nil, or_false] at hnr
    subst hnr
    show min ((0 : K) + -1) 1 < 0
    rw [min_eq_left (by norm_num)]
    norm_num

theorem sum_sq_nonneg (ws : List K) : 0 ≤ (ws.map (fun w => w * w)).sum := by
  apply List.sum_nonneg
  intro x hx
  obtain ⟨w, _, rfl⟩ := List.mem_map.mp hx
  exact mul_self_nonneg w

theorem sum_sq_div (ws : List K) (c : K) :
    ((ws.map (fun w => w / c)).map (fun w => w * w)).sum
      = ((ws.map (fun w => w * w)).sum) / (c * c) := by
  induction ws with
  | nil => simp
  | cons w ws ih =>
    simp only [List.map_cons, List.sum_cons, ih, div_mul_div_comm, add_div]

/-- Claim C5: whenever the L2 norm of the weight vector after the Hebbian
reinforcement phase is nonzero, `Dendritoma::apply_learning` leaves the
weight vector with L2 norm exactly 1 (exact arithmetic over `ℝ` idealises
the source's floating-point tolerance); since this holds for every starting
dendritoma it holds for arbitrary repeated calls. -/
theorem apply_learning_unit_norm (d : Dendritoma ℝ) (inputs : List ℝ)
    (d' : Dendritoma ℝ)
    (h : d.apply_learning Real.sqrt inputs = some d')
    (hnz : l2_norm Real.sqrt (d.hebbian_weights inputs) ≠ 0) :
    l2_norm Real.sqrt d'.weights = 1 := by
  rw [Dendritoma.apply_learning] at h
  split_ifs at h with hlen
  · have hd' := Option.some_injective _ h
    have hS0 : 0 ≤ ((d.hebbian_weights inputs).map (fun w => w * w)).sum :=
      sum_sq_nonneg _
    have hSpos : 0 < ((d.hebbian_weights inputs).map (fun w => w * w)).sum := by
      rcases hS0.eq_or_lt with he | hlt
      · exact absurd (by rw [l2_norm, ← he, Real.sqrt_zero]) hnz
      · exact hlt
    have hnorm_pos : 0 < l2_norm Real.sqrt (d.hebbian_weights inputs) := by
      rw [l2_norm]
      exact Real.sqrt_pos.mpr hSpos
    have hw : d'.weights =
        (d.hebbian_weights inputs).map
          (fun w => w / l2_norm Real.sqrt (d.hebbian_weights inputs)) := by
      rw [← hd']
      simp [hnorm_pos]
    rw [hw, l2_norm, sum_sq_div]
    rw [show l2_norm Real.sqrt (d.hebbian_weights inputs) *
          l2_norm Real.sqrt (d.hebbian_weights inputs)
        = ((d.hebbian_weights inputs).map (fun w => w * w)).sum from
      Real.mul_self_sqrt hS0]
    rw [div_self (ne_of_gt hSpos)]
    exact Real.sqrt_one

/-- Witness for C5: a concrete dendritoma with weights `[1, 0]` and inputs
`[0, 0]` (no Hebbian change, norm 1). -/
theorem apply_learning_unit_norm_witness :
    ∃ d' : Dendritoma ℝ,
      Dendritoma.apply_learning Real.sqrt ⟨[1, 0], [1, 1], 1 / 100⟩ [0, 0] = some d' ∧
      l2_norm Real.sqrt
        ((⟨[1, 0], [1, 1], 1 / 100⟩ : Dendritoma ℝ).hebbian_weights [0, 0]) ≠ 0 ∧
      l2_norm Real.sqrt d'.weights = 1 := by
  have hheb : (⟨[1, 0], [1, 1], 1 / 100⟩ : Dendritoma ℝ).hebbian_weights [0, 0]
      = [1, 0] := by
    simp [Dendritoma.hebbian_weights]
  have hnorm : l2_norm Real.sqrt
      ((⟨[1, 0], [1, 1], 1 / 100⟩ : Dendritoma ℝ).hebbian_weights [0, 0]) = 1 := by
    rw [hheb, l2_norm]
    norm_num
  have hnz : l2_norm Real.sqrt
      ((⟨[1, 0], [1, 1], 1 / 100⟩ : Dendritoma ℝ).hebbian_weights [0, 0]) ≠ 0 := by
    rw [hnorm]; norm_num
  have happ : Dendritoma.apply_learning Real.sqrt
      (⟨[1, 0], [1, 1], 1 / 100⟩ : Dendritoma ℝ) [0, 0]
      = some ⟨[1, 0], [1, 1], 1 / 100⟩ := by
    rw [Dendritoma.apply_learning]
    rw [if_pos (by simp)]
    simp only [hnorm]
    norm_num [hheb]
  exact ⟨⟨[1, 0], [1, 1], 1 / 100⟩, happ, hnz,
    apply_learning_unit_norm _ _ _ happ hnz⟩

theorem NENV.set_alert_fields (nr : NENV K) (a : K) :
    (nr.set_alert a).id = nr.id ∧
    (nr.set_alert a).neuron_type = nr.neuron_type ∧
    (nr.set_alert a).dendritoma = nr.dendritoma ∧
    (nr.set_alert a).memory_trace = nr.memory_trace ∧
    (nr.set_alert a).last_fire_time = nr.last_fire_time ∧
    (nr.set_alert a).threshold = nr.threshold ∧
    (nr.set_alert a).is_firing = nr.is_firing ∧
    (nr.set_alert a).output_signal = nr.output_signal ∧
    (nr.set_alert a).refractory_period = nr.refractory_period ∧
    (nr.set_alert a).memory_alpha = nr.memory_alpha ∧
    (nr.set_alert a).glia.priority = nr.glia.priority ∧
    (nr.set_alert a).glia.energy = nr.glia.energy :=
  ⟨rfl, rfl, rfl, rfl, rfl, rfl, rfl, rfl, rfl, rfl, rfl, rfl⟩

theorem NENV.decide_to_fire_fields (nr : NENV K) (mp : K) (t : Int) :
    (nr.decide_to_fire mp t).id = nr.id ∧
    (nr.decide_to_fire mp t).neuron_type = nr.neuron_type ∧
    (nr.decide_to_fire mp t).dendritoma = nr.dendritoma ∧
    (nr.decide_to_fire mp t).memory_trace = nr.memory_trace ∧
    (nr.decide_to_fire mp t).threshold = nr.threshold ∧
    (nr.decide_to_fire mp t).refractory_period = nr.refractory_period ∧
    (nr.decide_to_fire mp t).memory_alpha = nr.memory_alpha ∧
    (nr.decide_to_fire mp t).glia = nr.glia := by
  unfold NENV.decide_to_fire
  split <;> exact ⟨rfl, rfl, rfl, rfl, rfl, rfl, rfl, rfl⟩

/-- Firing/refractory behaviour of `NENV::decide_to_fire`: a firing decision
records the current tick and can only happen when the neuron never fired
before or the refractory period has elapsed; a non-firing decision leaves the
last fire time untouched. -/
theorem NENV.decide_to_fire_firing (nr : NENV K) (mp : K) (t : Int) :
    ((nr.decide_to_fire mp t).is_firing = true →
      (nr.decide_to_fire mp t).last_fire_time = t ∧
        (nr.last_fire_time < 0 ∨ nr.refractory_period ≤ t - nr.last_fire_time)) ∧
    ((nr.decide_to_fire mp t).is_firing = false →
      (nr.decide_to_fire mp t).last_fire_time = nr.last_fire_time) := by
  unfold NENV.decide_to_fire
  split
  · rename_i hcond
    refine ⟨fun _ => ⟨rfl, ?_⟩, fun hf => absurd hf (by simp)⟩
    have hrefr := hcond.2
    unfold NENV.is_in_refractory at hrefr
    by_cases hneg : nr.last_fire_time < 0
    · exact Or.inl hneg
    · rw [if_neg hneg] at hrefr
      simp only [decide_eq_false_iff_not, not_lt] at hrefr
      exact Or.inr hrefr
  · exact ⟨fun hf => absurd hf (by simp), fun _ => rfl⟩

theorem NENV.compute_novelty_eq_some (nr : NENV K) (inputs : List K) (v : K)
    (h : nr.compute_novelty inputs = some v) :
    inputs.length = nr.memory_trace.length ∧
      v = ((inputs.zip nr.memory_trace).map (fun p => |p.1 - p.2|)).sum
        / (inputs.length : K) := by
  unfold NENV.compute_novelty at h
  split_ifs at h with hlen
  · exact ⟨hlen, (Option.some_injective _ h).symm⟩

/-- A computed novelty value is non-negative: it is a sum of absolute values
divided by a non-negative count. -/
theorem NENV.compute_novelty_nonneg (nr : NENV K) (inputs : List K) (v : K)
    (h : nr.compute_novelty inputs = some v) : 0 ≤ v := by
  obtain ⟨-, hv⟩ := nr.compute_novelty_eq_some inputs v h
  rw [hv]
  apply div_nonneg
  · apply List.sum_nonneg
    intro x hx
    obtain ⟨p, -, rfl⟩ := List.mem_map.mp hx
    exact abs_nonneg _
  · exact Nat.cast_nonneg _

theorem NENV.update_memory_eq_some (nr : NENV K) (inputs : List K) (nr' : NENV K)
    (h : nr.update_memory inputs = some nr') :
    inputs.length = nr.memory_trace.length ∧
      nr' = { nr with
        memory_trace :=
          (nr.memory_trace.zip inputs).map
            (fun p => (1 - nr.memory_alpha) * p.1 + nr.memory_alpha * p.2) } := by
  unfold NENV.update_memory at h
  split_ifs at h with hlen
  · exact ⟨hlen, (Option.some_injective _ h).symm⟩

theorem Dendritoma.apply_learning_eq_some (sq : K → K) (d : Dendritoma K)
    (inputs : List K) (d' : Dendritoma K)
    (h : d.apply_learning sq inputs = some d') :
    inputs.length = d.weights.length ∧
      d' = { d with
        weights :=
          if 0 < l2_norm sq (d.hebbian_weights inputs) then
            (d.hebbian_weights inputs).map
              (fun w => w / l2_norm sq (d.hebbian_weights inputs))
          else d.hebbian_weights inputs } := by
  unfold Dendritoma.apply_learning at h
  split_ifs at h with hlen
  · exact ⟨hlen, (Option.some_injective _ h).symm⟩

/-- Behaviour of one phase-4 step (`compute_novelty`, `update_priority`,
conditional `apply_learning`, `update_state`, `update_memory`) on the fields
relevant to the tick-level invariants: the identity, kind, threshold,
refractory data, firing state and last fire time pass through unchanged, the
priority becomes the clamped `min (1 + novelty, 3)`, and the reported novelty
is the neuron's computed novelty. -/
theorem NENV.phase4_step_spec (sq : K → K) (nr : NENV K) (inputs : List K)
    (nr' : NENV K) (v : K)
    (h : NENV.phase4_step sq nr inputs = some (nr', v)) :
    nr.compute_novelty inputs = some v ∧
    nr'.id = nr.id ∧
    nr'.neuron_type = nr.neuron_type ∧
    nr'.threshold = nr.threshold ∧
    nr'.refractory_period = nr.refractory_period ∧
    nr'.is_firing = nr.is_firing ∧
    nr'.last_fire_time = nr.last_fire_time ∧
    nr'.output_signal = nr.output_signal ∧
    nr'.memory_alpha = nr.memory_alpha ∧
    nr'.glia.priority = min (1 + v * 1) 3 ∧
    nr'.glia.alert_level = nr.glia.alert_level := by
  unfold NENV.phase4_step at h
  simp only [bind, Option.bind_eq_some, Option.pure_def] at h
  obtain ⟨v0, hv0, h⟩ := h
  split at h
  · rw [Option.bind_eq_some] at h
    obtain ⟨d, hd, h⟩ := h
    rw [Option.bind_eq_some] at h
    obtain ⟨nr3, hnr3, h⟩ := h
    have hpair : nr3 = nr' ∧ v0 = v := by
      have := Option.some_injective _ h
      exact ⟨congrArg Prod.fst this, congrArg Prod.snd this⟩
    obtain ⟨rfl, rfl⟩ := hpair
    obtain ⟨-, hmem⟩ := NENV.update_memory_eq_some _ _ _ hnr3
    subst hmem
    exact ⟨hv0, rfl, rfl, rfl, rfl, rfl, rfl, rfl, rfl, rfl, rfl⟩
  · rw [Option.some_bind, Option.bind_eq_some] at h
    obtain ⟨nr3, hnr3, h⟩ := h
    have hpair : nr3 = nr' ∧ v0 = v := by
      have := Option.some_injective _ h
      exact ⟨congrArg Prod.fst this, congrArg Prod.snd this⟩
    obtain ⟨rfl, rfl⟩ := hpair
    obtain ⟨-, hmem⟩ := NENV.update_memory_eq_some _ _ _ hnr3
    subst hmem
    exact ⟨hv0, rfl, rfl, rfl, rfl, rfl, rfl, rfl, rfl, rfl, rfl⟩

theorem update_decomp (sq : K → K) (net net' : Network K) (ext : List K)
    (h : net.update sq ext = some net') :
    ∃ (modulated : List K) (results : List (NENV K × K)),
      mapOpt (fun p => (Dendritoma.integrate p.1.dendritoma p.2).map
          (fun integrated => p.1.glia.modulate integrated))
        (net.phase0.neurons.zip (net.phase0.gather_all ext)) = some modulated ∧
      mapOpt (fun p => NENV.phase4_step sq p.1 p.2)
        ((((net.phase0.neurons.zip modulated).map
            (fun p => p.1.decide_to_fire p.2 net.phase0.current_time_step))).zip
          (net.phase0.gather_all ext)) = some results ∧
      net' = net.phase0.finish_tick results := by
  rw [Network.update] at h
  split at h
  · exact absurd h (by simp)
  · rename_i modulated hm
    simp only [] at h
    split at h
    · exact absurd h (by simp)
    · rename_i results hr
      exact ⟨modulated, results, hm, hr, (Option.some_injective _ h).symm⟩

theorem Network.phase0_time (net : Network K) :
    net.phase0.current_time_step = net.current_time_step + 1 := rfl

theorem Network.phase0_frame (net : Network K) :
    net.phase0.connectivity_matrix = net.connectivity_matrix ∧
    net.phase0.grid_width = net.grid_width ∧
    net.phase0.grid_height = net.grid_height ∧
    net.phase0.alert_decay_rate = net.alert_decay_rate ∧
    net.phase0.novelty_alert_threshold = net.novelty_alert_threshold ∧
    net.phase0.alert_sensitivity = net.alert_sensitivity ∧
    net.phase0.current_avg_novelty = net.current_avg_novelty :=
  ⟨rfl, rfl, rfl, rfl, rfl, rfl, rfl⟩

theorem Network.phase0_neurons (net : Network K) :
    net.phase0.neurons = net.neurons.map
      (fun nr => nr.set_alert (net.alert_level * (1 - net.alert_decay_rate))) := rfl

theorem Network.phase0_alert (net : Network K) :
    net.phase0.alert_level = net.alert_level * (1 - net.alert_decay_rate) := rfl

theorem Network.boost_alert_frame (net : Network K) (b : K) :
    (net.boost_alert_level b).connectivity_matrix = net.connectivity_matrix ∧
    (net.boost_alert_level b).current_time_step = net.current_time_step ∧
    (net.boost_alert_level b).grid_width = net.grid_width ∧
    (net.boost_alert_level b).grid_height = net.grid_height ∧
    (net.boost_alert_level b).alert_decay_rate = net.alert_decay_rate ∧
    (net.boost_alert_level b).novelty_alert_threshold = net.novelty_alert_threshold ∧
    (net.boost_alert_level b).alert_sensitivity = net.alert_sensitivity ∧
    (net.boost_alert_level b).current_avg_novelty = net.current_avg_novelty ∧
    (net.boost_alert_level b).neurons
      = net.neurons.map (fun nr => nr.set_alert (min (net.alert_level + b) 1)) ∧
    (net.boost_alert_level b).alert_level = min (net.alert_level + b) 1 :=
  ⟨rfl, rfl, rfl, rfl, rfl, rfl, rfl, rfl, rfl, rfl⟩

theorem Network.finish_tick_frame (net2 : Network K) (results : List (NENV K × K)) :
    (net2.finish_tick results).connectivity_matrix = net2.connectivity_matrix ∧
    (net2.finish_tick results).current_time_step = net2.current_time_step ∧
    (net2.finish_tick results).grid_width = net2.grid_width ∧
    (net2.finish_tick results).grid_height = net2.grid_height ∧
    (net2.finish_tick results).alert_decay_rate = net2.alert_decay_rate ∧
    (net2.finish_tick results).novelty_alert_threshold = net2.novelty_alert_threshold ∧
    (net2.finish_tick results).alert_sensitivity = net2.alert_sensitivity := by
  unfold Network.finish_tick
  simp only []
  split
  · exact ⟨rfl, rfl, rfl, rfl, rfl, rfl, rfl⟩
  · exact ⟨rfl, rfl, rfl, rfl, rfl, rfl, rfl⟩

/-- The neuron list produced by phase 5: the phase-4 neurons, possibly with a
re-mirrored alert level when the novelty boost fires. -/
theorem Network.finish_tick_neurons (net2 : Network K) (results : List (NENV K × K)) :
    (net2.finish_tick results).neurons = results.map Prod.fst ∨
    ∃ a : K, (net2.finish_tick results).neurons
      = (results.map Prod.fst).map (fun nr => nr.set_alert a) := by
  unfold Network.finish_tick
  simp only []
  split
  · exact Or.inr ⟨_, rfl⟩
  · exact Or.inl rfl

theorem Network.gather_all_length (net : Network K) (ext : List K) :
    (net.gather_all ext).length = net.neurons.length := by
  simp [Network.gather_all]

/-- What one tick does to the per-neuron bookkeeping: identity, kind,
threshold, refractory period and memory rate are untouched; the priority ends
clamped into `[1, 3]`; a neuron that fired this tick records the new tick as
its last fire time and was either fresh or past its refractory period, and a
neuron that did not fire keeps its previous last fire time. -/
theorem update_neuron_spec (sq : K → K) (net net' : Network K) (ext : List K)
    (i : Nat) (nr nr' : NENV K)
    (h : net.update sq ext = some net')
    (hn : net.neurons[i]? = some nr) (hn' : net'.neurons[i]? = some nr') :
    nr'.id = nr.id ∧
    nr'.neuron_type = nr.neuron_type ∧
    nr'.threshold = nr.threshold ∧
    nr'.refractory_period = nr.refractory_period ∧
    nr'.memory_alpha = nr.memory_alpha ∧
    (1 ≤ nr'.glia.priority ∧ nr'.glia.priority ≤ 3) ∧
    (nr'.is_firing = true →
      nr'.last_fire_time = net.current_time_step + 1 ∧
        (nr.last_fire_time < 0 ∨
          nr.refractory_period ≤ (net.current_time_step + 1) - nr.last_fire_time)) ∧
    (nr'.is_firing = false → nr'.last_fire_time = nr.last_fire_time) := by
  obtain ⟨modulated, results, hm, hr, heq⟩ := update_decomp sq net net' ext h
  subst heq
  have hp : ∃ p : NENV K × K, results[i]? = some p ∧
      (nr' = p.1 ∨ ∃ a : K, nr' = p.1.set_alert a) := by
    rcases Network.finish_tick_neurons net.phase0 results with hfn | ⟨a, hfn⟩
    · rw [hfn, List.getElem?_map] at hn'
      obtain ⟨p, hp1, hp2⟩ := Option.map_eq_some'.mp hn'
      exact ⟨p, hp1, Or.inl hp2.symm⟩
    · rw [hfn, List.getElem?_map, List.getElem?_map] at hn'
      obtain ⟨q0, hq1, hq2⟩ := Option.map_eq_some'.mp hn'
      obtain ⟨p, hp1, hp2⟩ := Option.map_eq_some'.mp hq1
      exact ⟨p, hp1, Or.inr ⟨a, by rw [← hq2, ← hp2]⟩⟩
  obtain ⟨p, hpi, hcase⟩ := hp
  obtain ⟨nr4, v⟩ := p
  obtain ⟨q, hqi, hq⟩ := mapOpt_getElem? _ hr i (nr4, v) hpi
  rw [List.getElem?_zip_eq_some] at hqi
  obtain ⟨hq1, hq2⟩ := hqi
  rw [List.getElem?_map] at hq1
  obtain ⟨r, hr1, hr2⟩ := Option.map_eq_some'.mp hq1
  rw [List.getElem?_zip_eq_some] at hr1
  obtain ⟨hr11, hr12⟩ := hr1
  rw [Network.phase0_neurons, List.getElem?_map, hn, Option.map_some'] at hr11
  have hrr : r.1 = nr.set_alert (net.alert_level * (1 - net.alert_decay_rate)) :=
    (Option.some_injective _ hr11).symm
  obtain ⟨hnov, hid4, hty4, hth4, hrf4, hfi4, hlf4, hout4, hal4, hpr4, halert4⟩ :=
    NENV.phase4_step_spec sq q.1 q.2 nr4 v hq
  have hvnn : 0 ≤ v := NENV.compute_novelty_nonneg q.1 q.2 v hnov
  obtain ⟨hidD, htyD, hdenD, hmemD, hthD, hrfD, halD, hglD⟩ :=
    NENV.decide_to_fire_fields r.1 r.2 net.phase0.current_time_step
  obtain ⟨hfire, hnofire⟩ :=
    NENV.decide_to_fire_firing r.1 r.2 net.phase0.current_time_step
  obtain ⟨hidS, htyS, hdS, hmS, hlfS, hthS, hfiS, houtS, hrfS, halS, hprS, henS⟩ :=
    NENV.set_alert_fields nr (net.alert_level * (1 - net.alert_decay_rate))
  -- field chains from `nr'` down to `nr`
  have hfields : nr'.id = nr4.id ∧ nr'.neuron_type = nr4.neuron_type ∧
      nr'.threshold = nr4.threshold ∧ nr'.refractory_period = nr4.refractory_period ∧
      nr'.memory_alpha = nr4.memory_alpha ∧ nr'.glia.priority = nr4.glia.priority ∧
      nr'.is_firing = nr4.is_firing ∧ nr'.last_fire_time = nr4.last_fire_time := by
    rcases hcase with rfl | ⟨a, rfl⟩
    · exact ⟨rfl, rfl, rfl, rfl, rfl, rfl, rfl, rfl⟩
    · obtain ⟨h1, h2, _, _, h5, h6, h7, _, h9, h10, h11, _⟩ :=
        NENV.set_alert_fields nr4 a
      exact ⟨h1, h2, h6, h9, h10, h11, h7, h5⟩
  obtain ⟨hfid, hfty, hfth, hfrf, hfal, hfpr, hffi, hflf⟩ := hfields
  rw [← hr2] at hid4 hty4 hth4 hrf4 hal4 hfi4 hlf4
  refine ⟨?_, ?_, ?_, ?_, ?_, ⟨?_, ?_⟩, ?_, ?_⟩
  · rw [hfid, hid4, hidD, hrr, hidS]
  · rw [hfty, hty4, htyD, hrr, htyS]
  · rw [hfth, hth4, hthD, hrr, hthS]
  · rw [hfrf, hrf4, hrfD, hrr, hrfS]
  · rw [hfal, hal4, halD, hrr, halS]
  · rw [hfpr, hpr4]
    exact le_min (by linarith) (by norm_num)
  · rw [hfpr, hpr4]
    exact min_le_right _ _
  · intro hf
    rw [hffi, hfi4] at hf
    obtain ⟨hlt, hcond⟩ := hfire hf
    constructor
    · rw [hflf, hlf4, hlt, Network.phase0_time]
    · rw [hrr, hlfS, hrfS] at hcond
      rw [Network.phase0_time] at hcond
      exact hcond
  · intro hf
    rw [hffi, hfi4] at hf
    rw [hflf, hlf4, hnofire hf, hrr, hlfS]

theorem update_length (sq : K → K) (net net' : Network K) (ext : List K)
    (h : net.update sq ext = some net') :
    net'.neurons.length = net.neurons.length := by
  obtain ⟨modulated, results, hm, hr, heq⟩ := update_decomp sq net net' ext h
  subst heq
  have hlen2 : net.phase0.neurons.length = net.neurons.length := by
    rw [Network.phase0_neurons]; simp
  have hg : (net.phase0.gather_all ext).length = net.neurons.length := by
    rw [Network.gather_all_length, hlen2]
  have hmod : modulated.length = net.neurons.length := by
    rw [mapOpt_length _ hm]
    simp [hlen2, hg]
  have hres : results.length = net.neurons.length := by
    rw [mapOpt_length _ hr]
    simp [hlen2, hg, hmod]
  rcases Network.finish_tick_neurons net.phase0 results with hfn | ⟨a, hfn⟩ <;>
    simp [hfn, hres]

theorem update_time (sq : K → K) (net net' : Network K) (ext : List K)
    (h : net.update sq ext = some net') :
    net'.current_time_step = net.current_time_step + 1 := by
  obtain ⟨modulated, results, hm, hr, heq⟩ := update_decomp sq net net' ext h
  subst heq
  rw [(Network.finish_tick_frame _ _).2.1, Network.phase0_time]

/-- The zero function standing in for `f64::sqrt` in rational test instances
whose runs never normalise a nonzero weight vector. -/
def sqQ : ℚ → ℚ := fun _ => 0

/-- A concrete one-neuron fully connected rational network (threshold `-1`,
injected weight 0) used as the witness configuration. -/
def netQ : Network ℚ := Network.new sqQ (fun _ => [0]) 1 ConnectivityType.FullyConnected 0 (-1)

/-- `netQ` after one tick with stimulus `[1]`. -/
def netQ1 : Network ℚ := (netQ.update sqQ [1]).getD netQ

set_option maxRecDepth 40000

/-- Claim C8: every computed novelty is non-negative, and consequently after
any tick every neuron's priority lies in `[1, 3]` (it is set to
`min (1 + novelty, 3)` during phase 4 and only re-mirrored afterwards). -/
theorem novelty_nonneg_and_priority_in_range (sq : K → K) (net net' : Network K)
    (ext : List K) (nr0 : NENV K) (inputs : List K) (v : K)
    (_hlen : 0 < inputs.length)
    (hv : nr0.compute_novelty inputs = some v)
    (h : net.update sq ext = some net') :
    0 ≤ v ∧ ∀ nr' ∈ net'.neurons, 1 ≤ nr'.glia.priority ∧ nr'.glia.priority ≤ 3 := by
  refine ⟨NENV.compute_novelty_nonneg nr0 inputs v hv, ?_⟩
  intro nr' hmem
  obtain ⟨i, hi⟩ := List.mem_iff_getElem?.mp hmem
  have hilen : i < net'.neurons.length := by
    by_contra hge
    rw [List.getElem?_eq_none (by omega)] at hi
    exact absurd hi (by simp)
  have hilen0 : i < net.neurons.length := by
    rw [← update_length sq net net' ext h]
    exact hilen
  obtain ⟨-, -, -, -, -, hpr, -, -⟩ :=
    update_neuron_spec sq net net' ext i net.neurons[i] nr' h
      (List.getElem?_eq_getElem hilen0) hi
  exact hpr

/-- A concrete one-input excitatory neuron used in witnesses. -/
def nenvQ : NENV ℚ := NENV.new 0 1 0 NeuronType.Excitatory [0]

/-- Witness for C8 at a concrete neuron, input vector and network tick. -/
theorem novelty_nonneg_and_priority_in_range_witness :
    0 < ([1] : List ℚ).length ∧
    nenvQ.compute_novelty [1] = some 1 ∧
    netQ.update sqQ [1] = some netQ1 ∧
    ((0 : ℚ) ≤ 1 ∧ ∀ nr' ∈ netQ1.neurons,
      1 ≤ nr'.glia.priority ∧ nr'.glia.priority ≤ 3) :=
  ⟨by decide, by with_unfolding_all decide, by with_unfolding_all decide,
    novelty_nonneg_and_priority_in_range sqQ netQ netQ1 [1] nenvQ [1] 1
      (by decide) (by with_unfolding_all decide) (by with_unfolding_all decide)⟩

theorem NENV.phase4_step_isSome (sq : K → K) (nr : NENV K) (inputs : List K)
    (hm : inputs.length = nr.memory_trace.length)
    (hw : inputs.length = nr.dendritoma.weights.length) :
    (NENV.phase4_step sq nr inputs).isSome = true := by
  have h1 : nr.compute_novelty inputs =
      some (((inputs.zip nr.memory_trace).map (fun p => |p.1 - p.2|)).sum
        / (inputs.length : K)) := by
    unfold NENV.compute_novelty
    rw [if_pos hm]
  unfold NENV.phase4_step
  rw [h1]
  simp only [bind, Option.some_bind]
  set v := ((inputs.zip nr.memory_trace).map (fun p => |p.1 - p.2|)).sum
    / (inputs.length : K) with hv
  have hmem : ∀ (d : Dendritoma K),
      (({ nr.update_priority v 1 with
          dendritoma := d,
          glia := (nr.update_priority v 1).glia.update_state
            (nr.update_priority v 1).is_firing } : NENV K).update_memory inputs).isSome
        = true := by
    intro d
    unfold NENV.update_memory
    split
    · rfl
    · rename_i hcond
      exact absurd hm hcond
  split
  · have h2 : ((nr.update_priority v 1).dendritoma.apply_learning sq inputs).isSome
        = true := by
      unfold Dendritoma.apply_learning
      split
      · rfl
      · rename_i hcond
        exact absurd hw hcond
    obtain ⟨d, hd⟩ := Option.isSome_iff_exists.mp h2
    rw [hd]
    simp only [Option.some_bind]
    obtain ⟨nr3, hnr3⟩ := Option.isSome_iff_exists.mp (hmem d)
    rw [hnr3]
    rfl
  · simp only [Option.pure_def, Option.some_bind]
    obtain ⟨nr3, hnr3⟩ :=
      Option.isSome_iff_exists.mp (hmem (nr.update_priority v 1).dendritoma)
    rw [hnr3]
    rfl

/-- Claim C1 (amended): for a dimensionally consistent network,
`Network::update` succeeds for an external stimulus vector of any length:
out-of-range stimulus entries are skipped by the bounds check in
`gather_inputs`, and every internally built vector has the population size,
so no `DimensionMismatch` assertion can fire. -/
theorem update_total_for_any_stimulus (sq : K → K) (net : Network K) (ext : List K)
    (hwf : net.wellformed) : (net.update sq ext).isSome = true := by
  obtain ⟨hconn, hrows, hnrs⟩ := hwf
  have hgmem : ∀ inputs ∈ net.phase0.gather_all ext,
      inputs.length = net.neurons.length := by
    intro inputs hmem
    unfold Network.gather_all at hmem
    simp only [List.mem_map] at hmem
    obtain ⟨idx, -, rfl⟩ := hmem
    rw [gather_inputs_length, Network.phase0_neurons]
    simp
  have hnmem : ∀ nr2 ∈ net.phase0.neurons,
      nr2.dendritoma.weights.length = net.neurons.length ∧
      nr2.dendritoma.plasticity.length = net.neurons.length ∧
      nr2.memory_trace.length = net.neurons.length := by
    intro nr2 hmem
    rw [Network.phase0_neurons] at hmem
    simp only [List.mem_map] at hmem
    obtain ⟨nr, hnr, rfl⟩ := hmem
    exact hnrs nr hnr
  rw [Network.update]
  split
  · rename_i heq
    have h1 : (mapOpt
        (fun p => (Dendritoma.integrate p.1.dendritoma p.2).map
          (fun integrated => p.1.glia.modulate integrated))
        (net.phase0.neurons.zip (net.phase0.gather_all ext))).isSome = true := by
      apply mapOpt_isSome
      intro p hp
      obtain ⟨hp1, hp2⟩ := List.of_mem_zip (a := p.1) (b := p.2) (by simpa using hp)
      rw [Option.isSome_map']
      unfold Dendritoma.integrate
      split
      · rfl
      · rename_i hcond
        exact absurd ((hgmem p.2 hp2).trans ((hnmem p.1 hp1).1).symm) hcond
    rw [heq] at h1
    exact absurd h1 (by simp)
  · rename_i modulated hmod
    simp only []
    split
    · rename_i heq
      have h2 : (mapOpt (fun p => NENV.phase4_step sq p.1 p.2)
          (((net.phase0.neurons.zip modulated).map
            (fun p => p.1.decide_to_fire p.2 net.phase0.current_time_step)).zip
            (net.phase0.gather_all ext))).isSome = true := by
        apply mapOpt_isSome
        intro p hp
        obtain ⟨p1, p2⟩ := p
        obtain ⟨hp1, hp2⟩ := List.of_mem_zip (a := p1) (b := p2) (by simpa using hp)
        simp only [List.mem_map] at hp1
        obtain ⟨r, hr, rfl⟩ := hp1
        obtain ⟨hr1, -⟩ := List.of_mem_zip (a := r.1) (b := r.2) (by simpa using hr)
        obtain ⟨hwl, -, hml⟩ := hnmem r.1 hr1
        obtain ⟨-, -, hden, hmem, -, -, -, -⟩ :=
          NENV.decide_to_fire_fields r.1 r.2 net.phase0.current_time_step
        apply NENV.phase4_step_isSome
        · rw [hmem]
          exact (hgmem p2 hp2).trans hml.symm
        · rw [hden]
          exact (hgmem p2 hp2).trans hwl.symm
      rw [heq] at h2
      exact absurd h2 (by simp)
    · rfl

/-- Counterexample to C1 as stated: `netQ` has population size 1, yet a tick
driven with the empty stimulus vector (length 0) completes normally — the
tick counter advances and no failure occurs. -/
theorem update_mismatched_stimulus_completes :
    ([] : List ℚ).length ≠ netQ.neurons.length ∧
    (netQ.update sqQ []).isSome = true ∧
    (netQ.update sqQ []).map (fun n' => n'.current_time_step) = some 1 := by
  refine ⟨by decide, ?_, ?_⟩ <;> with_unfolding_all decide

/-- Witness for the amended C1 at a concrete network and an over-long
stimulus. -/
theorem update_total_for_any_stimulus_witness :
    netQ.wellformed ∧ (netQ.update sqQ [1, 2, 3]).isSome = true :=
  ⟨by decide, update_total_for_any_stimulus sqQ netQ [1, 2, 3] (by decide)⟩

/-- Claim C3: the input vector gathered for neuron `i` during a tick is built
only from the pre-tick snapshot of output signals (plus the external
stimulus): slot `j` equals the connectivity-masked output signal that neuron
`j` carried *before* the tick began, plus the stimulus entry `j`.  (The
snapshot is taken at the phase-0 state, before any `decide_to_fire` call of
the tick, and the phase-0 alert mirroring does not touch output signals, so
no current-tick firing decision can be reflected in any gathered input.) -/
theorem tick_inputs_from_prev_outputs (net : Network K) (ext : List K) (i j : Nat)
    (nr_j : NENV K) (hi : i < net.neurons.length)
    (hj : net.neurons[j]? = some nr_j) :
    ((net.phase0.gather_all ext).getD i []).getD j 0 =
      (if (net.connectivity_matrix.getD i []).getD j 0 = 1 then nr_j.output_signal else 0)
      + (if j < ext.length then ext.getD j 0 else 0) := by
  have hjlen : j < net.neurons.length := by
    by_contra hge
    rw [List.getElem?_eq_none (by omega)] at hj
    exact absurd hj (by simp)
  have hlen2 : net.phase0.neurons.length = net.neurons.length := by
    rw [Network.phase0_neurons]
    simp
  have hrow : (net.phase0.gather_all ext).getD i []
      = net.phase0.gather_inputs i
          (net.phase0.neurons.map (fun nr => nr.output_signal)) ext := by
    unfold Network.gather_all
    rw [List.getD_eq_getElem?_getD, List.getElem?_map,
      List.getElem?_range (by rw [hlen2]; exact hi)]
    rfl
  rw [hrow, List.getD_eq_getElem?_getD,
    gather_inputs_getElem? net.phase0 i j _ ext (by rw [hlen2]; exact hjlen)]
  have houts : (net.phase0.neurons.map (fun nr => nr.output_signal)).getD j 0
      = nr_j.output_signal := by
    rw [Network.phase0_neurons, List.map_map, List.getD_eq_getElem?_getD,
      List.getElem?_map, hj]
    rfl
  have hconn : net.phase0.connectivity_matrix = net.connectivity_matrix :=
    (Network.phase0_frame net).1
  rw [houts, hconn]
  rfl

/-- The neuron of `netQ` (used to name concrete witnesses). -/
def nrQ0 : NENV ℚ := netQ.neurons.getD 0 nenvQ

/-- Witness for C3 at the concrete network `netQ`, slot `(0, 0)`. -/
theorem tick_inputs_from_prev_outputs_witness :
    (0 : Nat) < netQ.neurons.length ∧
    netQ.neurons[0]? = some nrQ0 ∧
    ((netQ.phase0.gather_all [5]).getD 0 []).getD 0 0 =
      (if (netQ.connectivity_matrix.getD 0 []).getD 0 0 = 1 then nrQ0.output_signal else 0)
      + (if 0 < ([5] : List ℚ).length then ([5] : List ℚ).getD 0 0 else 0) :=
  ⟨by decide, by with_unfolding_all decide,
    tick_inputs_from_prev_outputs netQ [5] 0 0 nrQ0 (by decide)
      (by with_unfolding_all decide)⟩

theorem update_decay_rate (sq : K → K) (net net' : Network K) (ext : List K)
    (h : net.update sq ext = some net') :
    net'.alert_decay_rate = net.alert_decay_rate := by
  obtain ⟨modulated, results, hm, hr, heq⟩ := update_decomp sq net net' ext h
  subst heq
  rw [(Network.finish_tick_frame _ _).2.2.2.2.1, (Network.phase0_frame net).2.2.2.1]

theorem update_alert_le_one (sq : K → K) (net net' : Network K) (ext : List K)
    (h : net.update sq ext = some net')
    (h1 : net.alert_level ≤ 1) (h2 : 0 ≤ net.alert_decay_rate)
    (h3 : net.alert_decay_rate ≤ 1) :
    net'.alert_level ≤ 1 := by
  obtain ⟨modulated, results, hm, hr, heq⟩ := update_decomp sq net net' ext h
  subst heq
  have hph : net.phase0.alert_level ≤ 1 := by
    rw [Network.phase0_alert]
    have hf0 : 0 ≤ 1 - net.alert_decay_rate := by linarith
    calc net.alert_level * (1 - net.alert_decay_rate)
        ≤ 1 * (1 - net.alert_decay_rate) := mul_le_mul_of_nonneg_right h1 hf0
      _ = 1 - net.alert_decay_rate := one_mul _
      _ ≤ 1 := by linarith
  unfold Network.finish_tick
  simp only []
  split
  · exact min_le_right _ _
  · exact hph

/-- Claim C6: under any finite sequence of `set_alert_level`,
`boost_alert_level` and `update` calls, the network alert level never exceeds
`1.0` (each setter clamps from above, and the tick decay multiplies by a
factor in `[0, 1]`, given the constructor's decay rate). -/
theorem alert_level_never_exceeds_one (sq : K → K) (net net' : Network K)
    (ops : List (NetOp K))
    (h1 : net.alert_level ≤ 1) (h2 : 0 ≤ net.alert_decay_rate)
    (h3 : net.alert_decay_rate ≤ 1)
    (h : net.run_ops sq ops = some net') :
    net'.alert_level ≤ 1 := by
  induction ops generalizing net with
  | nil =>
    unfold Network.run_ops at h
    rw [← Option.some_injective _ h]
    exact h1
  | cons op rest ih =>
    unfold Network.run_ops at h
    rw [Option.bind_eq_some] at h
    obtain ⟨netm, hop, hrest⟩ := h
    have hfacts : netm.alert_level ≤ 1 ∧ netm.alert_decay_rate = net.alert_decay_rate := by
      cases op with
      | set_alert l =>
        rw [show netm = net.set_alert_level l from
          (Option.some_injective _ hop).symm]
        exact ⟨min_le_right _ _, rfl⟩
      | boost_alert b =>
        rw [show netm = net.boost_alert_level b from
          (Option.some_injective _ hop).symm]
        exact ⟨min_le_right _ _, rfl⟩
      | tick e =>
        exact ⟨update_alert_le_one sq net netm e hop h1 h2 h3,
          update_decay_rate sq net netm e hop⟩
    exact ih netm hfacts.1 (hfacts.2 ▸ h2) (hfacts.2 ▸ h3) hrest

/-- A concrete op sequence on `netQ`: a huge boost, an out-of-range set, and
a tick. -/
def opsQ : List (NetOp ℚ) := [NetOp.boost_alert 100, NetOp.set_alert 5, NetOp.tick [1]]

/-- `netQ` after running `opsQ`. -/
def netQops : Network ℚ := (netQ.run_ops sqQ opsQ).getD netQ

/-- Witness for C6 at the concrete network `netQ` and op sequence `opsQ`. -/
theorem alert_level_never_exceeds_one_witness :
    netQ.alert_level ≤ 1 ∧ 0 ≤ netQ.alert_decay_rate ∧ netQ.alert_decay_rate ≤ 1 ∧
    netQ.run_ops sqQ opsQ = some netQops ∧ netQops.alert_level ≤ 1 :=
  ⟨by with_unfolding_all decide, by with_unfolding_all decide,
    by with_unfolding_all decide, by with_unfolding_all decide,
    alert_level_never_exceeds_one sqQ netQ netQops opsQ
      (by with_unfolding_all decide) (by with_unfolding_all decide)
      (by with_unfolding_all decide) (by with_unfolding_all decide)⟩

/-- The timing invariant maintained by the tick loop: the clock is
non-negative, no recorded last fire time is in the future, and a neuron
marked as firing recorded the current tick. -/
def Network.fire_invariant (net : Network K) : Prop :=
  0 ≤ net.current_time_step ∧
  ∀ nr ∈ net.neurons,
    nr.last_fire_time ≤ net.current_time_step ∧
    (nr.is_firing = true → nr.last_fire_time = net.current_time_step)

instance (net : Network K) : Decidable net.fire_invariant := by
  unfold Network.fire_invariant
  infer_instance

theorem update_fire_invariant (sq : K → K) (net net' : Network K) (ext : List K)
    (h : net.update sq ext = some net') (hinv : net.fire_invariant) :
    net'.fire_invariant := by
  have ht := update_time sq net net' ext h
  constructor
  · rw [ht]
    linarith [hinv.1]
  · intro nr' hmem
    obtain ⟨i, hi⟩ := List.mem_iff_getElem?.mp hmem
    have hilen : i < net'.neurons.length := by
      by_contra hge
      rw [List.getElem?_eq_none (by omega)] at hi
      exact absurd hi (by simp)
    have hilen0 : i < net.neurons.length := by
      rw [← update_length sq net net' ext h]
      exact hilen
    have hn : net.neurons[i]? = some net.neurons[i] := List.getElem?_eq_getElem hilen0
    obtain ⟨-, -, -, -, -, -, hfire, hnofire⟩ :=
      update_neuron_spec sq net net' ext i net.neurons[i] nr' h hn hi
    have hbase := hinv.2 net.neurons[i] (List.getElem?_mem hn)
    rcases hb : nr'.is_firing with _ | _
    · have hlf := hnofire hb
      refine ⟨?_, ?_⟩
      · rw [hlf, ht]
        linarith [hbase.1]
      · intro hcontra
        exact absurd hcontra (by simp)
    · obtain ⟨hlf, -⟩ := hfire hb
      exact ⟨by rw [hlf, ht], fun _ => by rw [hlf, ht]⟩

theorem run_fire_invariant (sq : K → K) (net net' : Network K) (exts : List (List K))
    (h : net.run sq exts = some net') (hinv : net.fire_invariant) :
    net'.fire_invariant := by
  induction exts generalizing net with
  | nil =>
    unfold Network.run at h
    rw [← Option.some_injective _ h]
    exact hinv
  | cons e rest ih =>
    unfold Network.run at h
    rw [Option.bind_eq_some] at h
    obtain ⟨netm, hu, hrest⟩ := h
    exact ih netm hrest (update_fire_invariant sq net netm e hu hinv)

theorem run_time (sq : K → K) (net net' : Network K) (exts : List (List K))
    (h : net.run sq exts = some net') :
    net'.current_time_step = net.current_time_step + (exts.length : Int) := by
  induction exts generalizing net with
  | nil =>
    unfold Network.run at h
    rw [← Option.some_injective _ h]
    simp
  | cons e rest ih =>
    unfold Network.run at h
    rw [Option.bind_eq_some] at h
    obtain ⟨netm, hu, hrest⟩ := h
    rw [ih netm hrest, update_time sq net netm e hu]
    simp only [List.length_cons]
    push_cast
    ring

theorem run_length (sq : K → K) (net net' : Network K) (exts : List (List K))
    (h : net.run sq exts = some net') :
    net'.neurons.length = net.neurons.length := by
  induction exts generalizing net with
  | nil =>
    unfold Network.run at h
    rw [← Option.some_injective _ h]
  | cons e rest ih =>
    unfold Network.run at h
    rw [Option.bind_eq_some] at h
    obtain ⟨netm, hu, hrest⟩ := h
    rw [ih netm hrest, update_length sq net netm e hu]

theorem run_monotone_last (sq : K → K) (net net' : Network K) (exts : List (List K))
    (h : net.run sq exts = some net') (hinv : net.fire_invariant) :
    ∀ (i : Nat) (nr nr' : NENV K), net.neurons[i]? = some nr →
      net'.neurons[i]? = some nr' →
      nr.last_fire_time ≤ nr'.last_fire_time ∧
        nr'.refractory_period = nr.refractory_period := by
  induction exts generalizing net with
  | nil =>
    unfold Network.run at h
    rw [← Option.some_injective _ h]
    intro i nr nr' hn hn'
    rw [hn] at hn'
    rw [Option.some_injective _ hn']
    exact ⟨le_refl _, rfl⟩
  | cons e rest ih =>
    unfold Network.run at h
    rw [Option.bind_eq_some] at h
    obtain ⟨netm, hu, hrest⟩ := h
    intro i nr nr' hn hn'
    have hilen0 : i < net.neurons.length := by
      by_contra hge
      rw [List.getElem?_eq_none (by omega)] at hn
      exact absurd hn (by simp)
    have hilenm : i < netm.neurons.length := by
      rw [update_length sq net netm e hu]
      exact hilen0
    have hnm : netm.neurons[i]? = some netm.neurons[i] := List.getElem?_eq_getElem hilenm
    obtain ⟨-, -, -, hrfm, -, -, hfire, hnofire⟩ :=
      update_neuron_spec sq net netm e i nr netm.neurons[i] hu hn hnm
    have hstep : nr.last_fire_time ≤ (netm.neurons[i]).last_fire_time := by
      rcases hb : (netm.neurons[i]).is_firing with _ | _
      · rw [hnofire hb]
      · rw [(hfire hb).1]
        have := (hinv.2 nr (List.getElem?_mem hn)).1
        linarith
    obtain ⟨hmono, hrf⟩ := ih netm hrest
      (update_fire_invariant sq net netm e hu hinv) i netm.neurons[i] nr' hnm hn'
    exact ⟨le_trans hstep hmono, by rw [hrf, hrfm]⟩

theorem run_append (sq : K → K) (net : Network K) (exts1 exts2 : List (List K)) :
    net.run sq (exts1 ++ exts2)
      = (net.run sq exts1).bind (fun netm => netm.run sq exts2) := by
  induction exts1 generalizing net with
  | nil => rfl
  | cons e rest ih =>
    show (net.update sq e).bind (fun netm => netm.run sq (rest ++ exts2))
      = ((net.update sq e).bind (fun netm => netm.run sq rest)).bind _
    cases net.update sq e with
    | none => rfl
    | some netm =>
      simp only [Option.some_bind]
      exact ih netm

/-- Claim C4: along any stimulus sequence driven through the tick loop from a
state satisfying the timing invariant (as freshly constructed networks do), a
neuron that fires and then fires again some ticks later must have waited at
least its refractory period; and a neuron that has never fired
(`last_fire_time < 0`) is never refractory. -/
theorem no_refire_within_refractory_period (sq : K → K)
    (net0 net1 net2 : Network K) (exts1 exts2 : List (List K)) (i : Nat)
    (nr1 nr2 : NENV K)
    (hinv : net0.fire_invariant)
    (h1 : net0.run sq exts1 = some net1)
    (h2 : net1.run sq exts2 = some net2)
    (hne : exts2 ≠ [])
    (hn1 : net1.neurons[i]? = some nr1) (hf1 : nr1.is_firing = true)
    (hn2 : net2.neurons[i]? = some nr2) (hf2 : nr2.is_firing = true) :
    nr1.refractory_period ≤ (exts2.length : Int) ∧
    ∀ (nr : NENV K) (t : Int), nr.last_fire_time < 0 →
      nr.is_in_refractory t = false := by
  constructor
  · have hinv1 := run_fire_invariant sq net0 net1 exts1 h1 hinv
    have hlast1 : nr1.last_fire_time = net1.current_time_step :=
      (hinv1.2 nr1 (List.getElem?_mem hn1)).2 hf1
    rcases List.eq_nil_or_concat' exts2 with rfl | ⟨front, e, rfl⟩
    · exact absurd rfl hne
    · rw [run_append] at h2
      rw [Option.bind_eq_some] at h2
      obtain ⟨netA, hfront, hlaste⟩ := h2
      have hlaste' : netA.update sq e = some net2 := by
        unfold Network.run at hlaste
        rw [Option.bind_eq_some] at hlaste
        obtain ⟨netB, hB, hBnil⟩ := hlaste
        unfold Network.run at hBnil
        rw [Option.some_injective _ hBnil] at hB
        exact hB
      have hilen1 : i < net1.neurons.length := by
        by_contra hge
        rw [List.getElem?_eq_none (by omega)] at hn1
        exact absurd hn1 (by simp)
      have hilenA : i < netA.neurons.length := by
        rw [run_length sq net1 netA front hfront]
        exact hilen1
      have hnA : netA.neurons[i]? = some netA.neurons[i] :=
        List.getElem?_eq_getElem hilenA
      obtain ⟨hmono, hrfA⟩ := run_monotone_last sq net1 netA front hfront hinv1
        i nr1 netA.neurons[i] hn1 hnA
      obtain ⟨-, -, -, -, -, -, hfire, -⟩ :=
        update_neuron_spec sq netA net2 e i netA.neurons[i] nr2 hlaste' hnA hn2
      obtain ⟨-, hcond⟩ := hfire hf2
      have htA : netA.current_time_step
          = net1.current_time_step + (front.length : Int) :=
        run_time sq net1 netA front hfront
      have ht1 : net1.current_time_step
          = net0.current_time_step + (exts1.length : Int) :=
        run_time sq net0 net1 exts1 h1
      have hlastA : net1.current_time_step ≤ (netA.neurons[i]).last_fire_time := by
        rw [← hlast1]
        exact hmono
      have hnonneg : 0 ≤ (netA.neurons[i]).last_fire_time := by
        have h00 : (0 : Int) ≤ net0.current_time_step := hinv.1
        have : (0 : Int) ≤ net1.current_time_step := by
          rw [ht1]
          positivity
        linarith
      rcases hcond with hneg | hge
      · linarith
      · rw [hrfA] at hge
        have hlen : ((front ++ [e]).length : Int) = (front.length : Int) + 1 := by
          simp
        rw [hlen]
        have : netA.current_time_step + 1 - (netA.neurons[i]).last_fire_time
            ≤ (front.length : Int) + 1 := by
          rw [htA]
          linarith
        linarith
  · intro nr t hneg
    unfold NENV.is_in_refractory
    rw [if_pos hneg]

/-- A one-neuron witness network with threshold `-1` and refractory period 1
(the source exposes `NENV::set_refractory_period` to configure this), so that
it fires on consecutive admissible ticks. -/
def nenvW : NENV ℚ :=
  { id := 0, neuron_type := NeuronType.Excitatory, dendritoma := ⟨[0], [1], 1/100⟩,
    glia := Glia.new, memory_trace := [0], last_fire_time := -1, threshold := -1,
    is_firing := false, output_signal := 0, refractory_period := 1,
    memory_alpha := 1/10 }

/-- The witness network holding `nenvW`. -/
def netW : Network ℚ :=
  { neurons := [nenvW], connectivity_matrix := [[1]], current_time_step := 0,
    grid_width := 0, grid_height := 0, alert_level := 0, alert_decay_rate := 5/100,
    current_avg_novelty := 0, novelty_alert_threshold := 5/10,
    alert_sensitivity := 3/10 }

/-- `netW` after one tick. -/
def netW1 : Network ℚ := (netW.update sqQ [0]).getD netW

/-- `netW` after two ticks. -/
def netW2 : Network ℚ := (netW1.update sqQ [0]).getD netW1

/-- The neuron of `netW1`. -/
def nrW1 : NENV ℚ := netW1.neurons.getD 0 nenvW

/-- The neuron of `netW2`. -/
def nrW2 : NENV ℚ := netW2.neurons.getD 0 nenvW

/-- Witness for C4: `netW`'s neuron fires at tick 1 and again at tick 2, one
tick later, consistent with its refractory period 1. -/
theorem no_refire_within_refractory_period_witness :
    netW.fire_invariant ∧
    netW.run sqQ [[0]] = some netW1 ∧
    netW1.run sqQ [[0]] = some netW2 ∧
    ([[0]] : List (List ℚ)) ≠ [] ∧
    netW1.neurons[0]? = some nrW1 ∧ nrW1.is_firing = true ∧
    netW2.neurons[0]? = some nrW2 ∧ nrW2.is_firing = true ∧
    (nrW1.refractory_period ≤ (([[0]] : List (List ℚ)).length : Int) ∧
      ∀ (nr : NENV ℚ) (t : Int), nr.last_fire_time < 0 →
        nr.is_in_refractory t = false) :=
  ⟨by with_unfolding_all decide, by with_unfolding_all decide,
    by with_unfolding_all decide, by decide,
    by with_unfolding_all decide, by with_unfolding_all decide,
    by with_unfolding_all decide, by with_unfolding_all decide,
    no_refire_within_refractory_period sqQ netW netW1 netW2 [[0]] [[0]] 0 nrW1 nrW2
      (by with_unfolding_all decide) (by with_unfolding_all decide)
      (by with_unfolding_all decide) (by decide)
      (by with_unfolding_all decide) (by with_unfolding_all decide)
      (by with_unfolding_all decide) (by with_unfolding_all decide)⟩
